import Mathlib

/-
Verification of the paragraph rendering widget (src/widgets/paragraph.rs).

The embedding models the scroll-window selection and painting pass of
`Widget::draw for Paragraph`.  Machine integers are modelled as `Nat`/`Int`
with explicit two's-complement wrapping (`% 2^16`) exactly where the Rust
source performs `as u16` / `as i16` casts or fixed-width arithmetic
(release-mode wrapping semantics).  The `unwrap()` on the overflow
character is modelled by an `Option` result: `none` means the draw panics.

The line composers (reflow.rs), the cell grid (buffer.rs) and the block
decoration are external collaborators whose sources are not part of the
reviewed tree; they are modelled from the spec where noted.
-/

namespace Tui

/-- Interpretation of a natural number as a Rust `as i16` cast:
take the low 16 bits and read them as a two's-complement signed value. -/
def toI16 (n : Nat) : Int :=
  if n % 65536 < 32768 then ((n % 65536 : Nat) : Int)
  else ((n % 65536 : Nat) : Int) - 65536

/-- Two's-complement wrapping of an integer into the `i16` range,
used for release-mode `i16` arithmetic (increment, negation, subtraction). -/
def wrapI16 (z : Int) : Int := (z + 32768) % 65536 - 32768

/-- Style, an opaque attribute bundle (foreground, background, modifiers);
the engine never interprets it.  `Style::default()` is `Style.default`. -/
structure Style where
  fg : Nat
  bg : Nat
  modifier : Nat
  deriving DecidableEq

def Style.default : Style := ⟨0, 0, 0⟩

/-- A styled grapheme unit, `Styled(&str, Style)` from reflow.rs:
one grapheme-cluster symbol paired with its style. -/
structure Styled where
  symbol : String
  style : Style
  deriving DecidableEq

/-- A grid cell: symbol plus style.
Modelled from the spec: the grid exposes cells with `set_symbol` and
`set_style`; a cell holds the written symbol and style. -/
structure Cell where
  symbol : String
  style : Style
  deriving DecidableEq

/-- The target rectangle (`Rect`): origin column/row, width, height. -/
structure Rect where
  x : Nat
  y : Nat
  width : Nat
  height : Nat
  deriving DecidableEq

/-- Horizontal alignment of a line inside the viewport. -/
inductive Alignment where
  | Left
  | Center
  | Right
  deriving DecidableEq

/-- Anchor policy for the scroll offset. -/
inductive ScrollFrom where
  | Top
  | Bottom
  deriving DecidableEq

/-- The caller-owned grid.
Modelled from the spec: an external mutable 2-D array of cells addressed
by absolute column/row, here a total function from coordinates to cells. -/
abbrev Buffer := Nat → Nat → Cell

/-- A composed line from the line composer: the grapheme units plus the
precomputed total display width (`next_line` yields `(&[Styled], u16)`).
Modelled from the spec: the composers (reflow.rs) are external; their
output lines satisfy the invariants stated in the spec (width equals the
sum of unit widths, width bounded by the maximum line width). -/
abbrev ComposedLine := List Styled × Nat

/-- `buf.get_mut(x, y).set_symbol(s)`: update only the symbol of one cell. -/
def setSymbol (buf : Buffer) (x y : Nat) (s : String) : Buffer :=
  fun a b => if a = x ∧ b = y then { buf a b with symbol := s } else buf a b

/-- `buf.get_mut(x, y).set_symbol(s).set_style(st)`: set symbol and style. -/
def setCell (buf : Buffer) (x y : Nat) (s : String) (st : Style) : Buffer :=
  fun a b => if a = x ∧ b = y then ⟨s, st⟩ else buf a b

/-- `get_line_offset` from paragraph.rs: the horizontal start column of a
line of width `line_width` inside a viewport of width `text_area_width`.
Lean's `Nat` subtraction is exactly Rust's `saturating_sub`. -/
def get_line_offset (line_width text_area_width : Nat) (alignment : Alignment) : Nat :=
  match alignment with
  | Alignment.Center => text_area_width / 2 - line_width / 2
  | Alignment.Right => text_area_width - line_width
  | Alignment.Left => 0

/-- The display-width collaborator (unicode_width): `W symbol` is the
terminal column width of a grapheme cluster.  Display widths are summed
to give a line's width. -/
def sumW (W : String → Nat) : List Styled → Nat
  | [] => 0
  | u :: rest => W u.symbol + sumW W rest

/-- The inner per-grapheme loop of the paint pass
(`for Styled(symbol, style) in current_line`): write each unit at
`(text_area.left() + x, text_area.top() + y)` and advance `x` by the
unit's display width. -/
def paintGo (W : String → Nat) (area : Rect) (y : Nat) : List Styled → Nat → Buffer → Buffer
  | [], _, buf => buf
  | u :: rest, x, buf =>
      paintGo W area y rest (x + W u.symbol)
        (setCell buf (area.x + x) (area.y + y) u.symbol u.style)

/-- Paint one composed line at viewport row `y`, starting at the column
given by `get_line_offset`. -/
def paintLine (W : String → Nat) (area : Rect) (align : Alignment) (y : Nat)
    (l : ComposedLine) (buf : Buffer) : Buffer :=
  paintGo W area y l.1 (get_line_offset l.2 area.width align) buf

/-- The `while let Some(...) = get_next_line()` loop of one viewport row:
skip lines while `current_line_index < first_line_index` (wrapping `i16`
increments), paint the first line whose index reaches `first_line_index`,
and return the updated buffer, the remaining lines and the new index. -/
def skipPaint (W : String → Nat) (area : Rect) (align : Alignment) (first : Int) (y : Nat) :
    List ComposedLine → Int → Buffer → Buffer × List ComposedLine × Int
  | [], idx, buf => (buf, [], idx)
  | l :: rest, idx, buf =>
      if first ≤ idx then
        (paintLine W area align y l buf, rest, wrapI16 (idx + 1))
      else
        skipPaint W area align first y rest (wrapI16 (idx + 1)) buf

/-- The row loop `for y in 0..text_area.height` of the draw pass.
A row with `(y as i16) < -first_line_index` takes the overflow-filler
branch, which unwraps `scroll_overflow_char`: with `none` this is the
panic, modelled as result `none`; with `some c` the single cell at the
viewport's left column gets symbol `c`.  Otherwise the row paints the
next selected composed line. -/
def drawRows (oc : Option Char) (W : String → Nat) (area : Rect) (align : Alignment)
    (first : Int) : Nat → Nat → List ComposedLine → Int → Buffer → Option Buffer
  | 0, _, _, _, buf => some buf
  | n + 1, y, lines, idx, buf =>
      if toI16 y < wrapI16 (-first) then
        match oc with
        | none => none
        | some c =>
            drawRows oc W area align first n (y + 1) lines idx
              (setSymbol buf area.x (area.y + y) (String.singleton c))
      else
        let r := skipPaint W area align first y lines idx buf
        drawRows oc W area align first n (y + 1) r.2.1 r.2.2 r.1

/-- `all_lines.len() as u16`: the composed-line count truncated to `u16`. -/
def num_lines (lines : List ComposedLine) : Nat := lines.length % 65536

/-- The `scroll_offset` computation for `ScrollFrom::Bottom`
(paragraph.rs lines 178-211): the 0-indexed start line held as an `i16`.
`text_area.height + self.scroll` is a `u16` addition (wrapping),
`num_lines - (...)` a `u16` subtraction followed by an `as i16` cast,
and the `Some` branch computes in wrapping `i16` arithmetic. -/
def bottomScrollOffset (oc : Option Char) (numLines height scroll : Nat) : Int :=
  match oc with
  | none =>
      if numLines ≤ (height + scroll) % 65536 then 0
      else toI16 (numLines - (height + scroll) % 65536)
  | some _ =>
      if numLines ≤ height then wrapI16 (-(toI16 scroll))
      else wrapI16 (toI16 numLines - toI16 ((height + scroll) % 65536))

/-- The configuration fields of `Paragraph` that the draw pass reads
after line composition. -/
structure Paragraph where
  style : Style
  scroll : Nat
  scroll_from : ScrollFrom
  scroll_overflow_char : Option Char
  alignment : Alignment

/-- `first_line_index` as selected by the `match self.scroll_from`:
`self.scroll as i16` for Top, the bottom scroll offset for Bottom. -/
def firstLineIndex (p : Paragraph) (area : Rect) (lines : List ComposedLine) : Int :=
  match p.scroll_from with
  | ScrollFrom.Top => toI16 p.scroll
  | ScrollFrom.Bottom =>
      bottomScrollOffset p.scroll_overflow_char (num_lines lines) area.height p.scroll

/-- Modelled from the spec: `Widget::background` lives outside the
reviewed tree; per the spec the caller is responsible for any background
fill prior to invocation and untouched cells stay untouched, so the
background step leaves the grid unchanged. -/
def background (_area : Rect) (buf : Buffer) (_style : Style) : Buffer := buf

/-- `Widget::draw for Paragraph`, after line composition: returns the
updated grid, or `none` when the draw panics on the overflow unwrap.
`lines` is the sequence the composer yields (Top pulls it lazily, Bottom
collects it first; both see the same sequence).  The block decoration is
the external wrapper of the spec, so `area` is already the text area. -/
def draw (p : Paragraph) (area : Rect) (W : String → Nat) (lines : List ComposedLine)
    (buf : Buffer) : Option Buffer :=
  if area.height < 1 then some buf
  else
    drawRows p.scroll_overflow_char W area p.alignment (firstLineIndex p area lines)
      area.height 0 lines 0 (background area buf p.style)

/-- Filler rows `y0, y0+1, ..., y0+m-1`: each gets the overflow character
at the viewport's left column, style untouched. -/
def fillRows (c : Char) (area : Rect) : Nat → Nat → Buffer → Buffer
  | 0, _, buf => buf
  | m + 1, y, buf =>
      fillRows c area m (y + 1) (setSymbol buf area.x (area.y + y) (String.singleton c))

/-- Paint lines one per row starting at row `y`, for at most `n` rows,
stopping when the lines run out. -/
def paintSeq (W : String → Nat) (area : Rect) (align : Alignment) :
    Nat → Nat → List ComposedLine → Buffer → Buffer
  | 0, _, _, buf => buf
  | _ + 1, _, [], buf => buf
  | n + 1, y, l :: rest, buf =>
      paintSeq W area align n (y + 1) rest (paintLine W area align y l buf)

/-- A `Nat` that fits in the nonnegative `i16` range is its own cast. -/
theorem toI16_of_le (n : Nat) (h : n ≤ 32767) : toI16 n = n := by
  unfold toI16
  split <;> omega

/-- Lower bound of the `i16` interpretation. -/
theorem toI16_lb (n : Nat) : -32768 ≤ toI16 n := by
  unfold toI16
  split <;> omega

/-- Upper bound of the `i16` interpretation. -/
theorem toI16_ub (n : Nat) : toI16 n ≤ 32767 := by
  unfold toI16
  split <;> omega

/-- Wrapping is the identity on values already in the `i16` range. -/
theorem wrapI16_eq_self (z : Int) (h1 : -32768 ≤ z) (h2 : z ≤ 32767) : wrapI16 z = z := by
  unfold wrapI16
  omega

/-- Lower bound of wrapped `i16` arithmetic. -/
theorem wrapI16_lb (z : Int) : -32768 ≤ wrapI16 z := by
  unfold wrapI16
  omega

/-- Upper bound of wrapped `i16` arithmetic. -/
theorem wrapI16_ub (z : Int) : wrapI16 z ≤ 32767 := by
  unfold wrapI16
  omega

/-- The computed first line index is always an `i16` value. -/
theorem firstLineIndex_range (p : Paragraph) (area : Rect) (lines : List ComposedLine) :
    -32768 ≤ firstLineIndex p area lines ∧ firstLineIndex p area lines ≤ 32767 := by
  unfold firstLineIndex bottomScrollOffset
  rcases p.scroll_from <;> rcases h : p.scroll_overflow_char <;> simp only []
  · constructor
    · exact toI16_lb _
    · exact toI16_ub _
  · constructor
    · exact toI16_lb _
    · exact toI16_ub _
  · split
    · omega
    · exact ⟨toI16_lb _, toI16_ub _⟩
  · split
    · exact ⟨wrapI16_lb _, wrapI16_ub _⟩
    · exact ⟨wrapI16_lb _, wrapI16_ub _⟩

/-- C5: for every line width, viewport width and alignment, the
horizontal start column is 0 for Left, the saturating difference
`width - line_width` for Right, and the saturating difference of the
halved widths for Center. -/
theorem get_line_offset_spec (lw w : Nat) :
    get_line_offset lw w Alignment.Left = 0 ∧
    (get_line_offset lw w Alignment.Right : Int) = max 0 ((w : Int) - lw) ∧
    (get_line_offset lw w Alignment.Center : Int) = max 0 ((↑(w / 2) : Int) - ↑(lw / 2)) := by
  refine ⟨rfl, ?_, ?_⟩ <;> simp only [get_line_offset] <;> omega

/-- C8: a draw whose effective text area has height 0 returns
immediately and leaves the whole grid unchanged. -/
theorem draw_height_zero (p : Paragraph) (area : Rect) (W : String → Nat)
    (lines : List ComposedLine) (buf : Buffer) (h : area.height = 0) :
    draw p area W lines buf = some buf := by
  unfold draw
  rw [if_pos (by omega)]

/-- Witness for C8 at a concrete height-0 draw. -/
theorem draw_height_zero_witness :
    draw ⟨Style.default, 3, ScrollFrom.Top, none, Alignment.Left⟩ ⟨0, 0, 5, 0⟩
      (fun _ => 1) [] (fun _ _ => ⟨" ", Style.default⟩) =
      some (fun _ _ => ⟨" ", Style.default⟩) :=
  draw_height_zero _ _ _ _ _ rfl

/-- Reduction of the first line index for a Top-anchored paragraph. -/
theorem firstLineIndex_top (st : Style) (sc : Nat) (oc : Option Char) (al : Alignment)
    (area : Rect) (lines : List ComposedLine) :
    firstLineIndex ⟨st, sc, ScrollFrom.Top, oc, al⟩ area lines = toI16 sc := rfl

/-- Reduction of the first line index for a Bottom-anchored paragraph. -/
theorem firstLineIndex_bottom (st : Style) (sc : Nat) (oc : Option Char) (al : Alignment)
    (area : Rect) (lines : List ComposedLine) :
    firstLineIndex ⟨st, sc, ScrollFrom.Bottom, oc, al⟩ area lines =
      bottomScrollOffset oc (num_lines lines) area.height sc := rfl

/-- Reduction of the Bottom scroll offset with overflow unset. -/
theorem bottomScrollOffset_none (n h s : Nat) :
    bottomScrollOffset none n h s =
      if n ≤ (h + s) % 65536 then 0 else toI16 (n - (h + s) % 65536) := rfl

/-- Reduction of the Bottom scroll offset with overflow set. -/
theorem bottomScrollOffset_some (c : Char) (n h s : Nat) :
    bottomScrollOffset (some c) n h s =
      if n ≤ h then wrapI16 (-(toI16 s))
      else wrapI16 (toI16 n - toI16 ((h + s) % 65536)) := rfl

/-- Unfolding lemma for the truncated line count. -/
theorem num_lines_eq (lines : List ComposedLine) :
    num_lines lines = lines.length % 65536 := rfl

/-- The truncated line count of a replicated list. -/
theorem num_lines_replicate (n : Nat) (l : ComposedLine) :
    num_lines (List.replicate n l) = n % 65536 := by
  simp only [num_lines, List.length_replicate]

/-- C1 counterexample: a Bottom-anchored draw with overflow unset over
40000 composed lines, viewport height 1, offset 0: the code computes the
start line as `(40000 - 1) as i16 = -25537`, which is negative and
differs from `total - (height + offset) = 39999`. -/
theorem bottom_none_start_negative_cex :
    firstLineIndex ⟨Style.default, 0, ScrollFrom.Bottom, none, Alignment.Left⟩
        ⟨0, 0, 10, 1⟩ (List.replicate 40000 ([], 0)) = -25537 ∧
    (-25537 : Int) < 0 := by
  constructor
  · rw [firstLineIndex_bottom, num_lines_replicate]
    decide
  · decide

/-- C1 (amended): for every Bottom-anchored draw with overflow unset,
provided `height + offset` fits in `u16` and the unclamped start index
`total - (height + offset)` fits in `i16` (at most 32767), the start
line is 0 when `total <= height + offset` and `total - (height+offset)`
otherwise, and it is never negative. -/
theorem bottom_none_start_clamped (st : Style) (sc : Nat) (al : Alignment)
    (area : Rect) (lines : List ComposedLine)
    (hlen : lines.length < 65536) (hhs : area.height + sc < 65536)
    (hfit : area.height + sc < lines.length → lines.length - (area.height + sc) ≤ 32767) :
    (firstLineIndex ⟨st, sc, ScrollFrom.Bottom, none, al⟩ area lines =
      if lines.length ≤ area.height + sc then 0
      else (lines.length : Int) - (area.height + sc)) ∧
    0 ≤ firstLineIndex ⟨st, sc, ScrollFrom.Bottom, none, al⟩ area lines := by
  rw [firstLineIndex_bottom, bottomScrollOffset_none, num_lines_eq,
    Nat.mod_eq_of_lt hlen, Nat.mod_eq_of_lt hhs]
  by_cases hc : lines.length ≤ area.height + sc
  · rw [if_pos hc, if_pos hc]
    exact ⟨rfl, le_refl 0⟩
  · rw [if_neg hc, if_neg hc, toI16_of_le _ (hfit (by omega))]
    constructor
    · omega
    · omega

/-- Witness for C1 (amended): 10 lines, height 3, offset 2: start 5. -/
theorem bottom_none_start_clamped_witness :
    (firstLineIndex ⟨Style.default, 2, ScrollFrom.Bottom, none, Alignment.Left⟩
        ⟨0, 0, 4, 3⟩ (List.replicate 10 ([], 0)) =
      if (List.replicate 10 (([], 0) : ComposedLine)).length ≤ 3 + 2 then 0
      else ((List.replicate 10 (([], 0) : ComposedLine)).length : Int) - (3 + 2)) ∧
    0 ≤ firstLineIndex ⟨Style.default, 2, ScrollFrom.Bottom, none, Alignment.Left⟩
        ⟨0, 0, 4, 3⟩ (List.replicate 10 ([], 0)) :=
  bottom_none_start_clamped _ _ _ _ _ (by decide) (by decide) (fun _ => by decide)

/-- C2 counterexample: a Bottom-anchored draw with overflow set, no
composed lines, viewport height 1, offset 40000: the code computes
`-(40000 as i16) = 25536` rather than `-offset = -40000`. -/
theorem bottom_some_start_cex :
    firstLineIndex ⟨Style.default, 40000, ScrollFrom.Bottom, some 'x', Alignment.Left⟩
        ⟨0, 0, 10, 1⟩ [] = 25536 ∧
    (25536 : Int) ≠ -(40000 : Int) := by
  constructor
  · decide
  · decide

/-- C2 (amended): for every Bottom-anchored draw with overflow set,
provided `total`, `offset` and `height + offset` all fit in the
nonnegative `i16` range (at most 32767), the start line is `-offset`
when `total <= height` and `total - (height + offset)` otherwise; in
both cases the value may be negative. -/
theorem bottom_some_start (st : Style) (sc : Nat) (al : Alignment) (c : Char)
    (area : Rect) (lines : List ComposedLine)
    (hlen : lines.length ≤ 32767) (hs : sc ≤ 32767) (hhs : area.height + sc ≤ 32767) :
    firstLineIndex ⟨st, sc, ScrollFrom.Bottom, some c, al⟩ area lines =
      if lines.length ≤ area.height then -(sc : Int)
      else (lines.length : Int) - (area.height + sc) := by
  rw [firstLineIndex_bottom, bottomScrollOffset_some, num_lines_eq]
  rw [Nat.mod_eq_of_lt (by omega : lines.length < 65536),
    Nat.mod_eq_of_lt (by omega : area.height + sc < 65536),
    toI16_of_le _ hs, toI16_of_le _ hlen, toI16_of_le _ hhs]
  by_cases hc : lines.length ≤ area.height
  · rw [if_pos hc, if_pos hc]
    exact wrapI16_eq_self _ (by omega) (by omega)
  · rw [if_neg hc, if_neg hc]
    rw [wrapI16_eq_self _ (by omega) (by omega)]
    omega

/-- Witness for C2 (amended): 1 line, height 3, offset 2: start -2. -/
theorem bottom_some_start_witness :
    firstLineIndex ⟨Style.default, 2, ScrollFrom.Bottom, some 'x', Alignment.Left⟩
        ⟨0, 0, 4, 3⟩ [([], 0)] =
      if ([(([], 0) : ComposedLine)]).length ≤ 3 then -((2 : Nat) : Int)
      else (([(([], 0) : ComposedLine)]).length : Int) - (3 + 2) :=
  bottom_some_start _ _ _ 'x' _ _ (by decide) (by decide) (by decide)

/-- Unfolding: zero rows paint nothing. -/
theorem drawRows_zero (oc : Option Char) (W : String → Nat) (area : Rect) (align : Alignment)
    (first : Int) (y : Nat) (lines : List ComposedLine) (idx : Int) (buf : Buffer) :
    drawRows oc W area align first 0 y lines idx buf = some buf := rfl

/-- Unfolding: one row step of the row loop. -/
theorem drawRows_succ (oc : Option Char) (W : String → Nat) (area : Rect) (align : Alignment)
    (first : Int) (n y : Nat) (lines : List ComposedLine) (idx : Int) (buf : Buffer) :
    drawRows oc W area align first (n + 1) y lines idx buf =
      if toI16 y < wrapI16 (-first) then
        match oc with
        | none => none
        | some c =>
            drawRows oc W area align first n (y + 1) lines idx
              (setSymbol buf area.x (area.y + y) (String.singleton c))
      else
        drawRows oc W area align first n (y + 1)
          (skipPaint W area align first y lines idx buf).2.1
          (skipPaint W area align first y lines idx buf).2.2
          (skipPaint W area align first y lines idx buf).1 := rfl

/-- Unfolding: the skip-paint loop with no lines is a no-op. -/
theorem skipPaint_nil (W : String → Nat) (area : Rect) (align : Alignment) (first : Int)
    (y : Nat) (idx : Int) (buf : Buffer) :
    skipPaint W area align first y [] idx buf = (buf, [], idx) := rfl

/-- A symbol write leaves every other cell unchanged. -/
theorem setSymbol_ne (buf : Buffer) (x y : Nat) (s : String) (a b : Nat)
    (h : ¬(a = x ∧ b = y)) : setSymbol buf x y s a b = buf a b := by
  unfold setSymbol
  rw [if_neg h]

/-- A cell write leaves every other cell unchanged. -/
theorem setCell_ne (buf : Buffer) (x y : Nat) (s : String) (st : Style) (a b : Nat)
    (h : ¬(a = x ∧ b = y)) : setCell buf x y s st a b = buf a b := by
  unfold setCell
  rw [if_neg h]

/-- The per-grapheme loop writes only into its own row. -/
theorem paintGo_ne_row (W : String → Nat) (area : Rect) (y : Nat) (units : List Styled) :
    ∀ (x : Nat) (buf : Buffer) (a b : Nat), b ≠ area.y + y →
      paintGo W area y units x buf a b = buf a b := by
  induction units with
  | nil => intro x buf a b _; rfl
  | cons u rest ih =>
      intro x buf a b h
      show paintGo W area y rest (x + W u.symbol)
        (setCell buf (area.x + x) (area.y + y) u.symbol u.style) a b = buf a b
      rw [ih _ _ _ _ h, setCell_ne _ _ _ _ _ _ _ (by omega)]

/-- The per-grapheme loop writes only into the column range spanned by
the start column and the summed display widths. -/
theorem paintGo_outside_col (W : String → Nat) (area : Rect) (y : Nat) (units : List Styled) :
    ∀ (x : Nat) (buf : Buffer) (a b : Nat),
      (a < area.x + x ∨ area.x + x + sumW W units < a) →
      paintGo W area y units x buf a b = buf a b := by
  induction units with
  | nil => intro x buf a b _; rfl
  | cons u rest ih =>
      intro x buf a b h
      simp only [sumW] at h
      show paintGo W area y rest (x + W u.symbol)
        (setCell buf (area.x + x) (area.y + y) u.symbol u.style) a b = buf a b
      rw [ih _ _ _ _ (by omega), setCell_ne _ _ _ _ _ _ _ (by omega)]

/-- One row of the skip-paint loop writes only into its own row. -/
theorem skipPaint_ne_row (W : String → Nat) (area : Rect) (align : Alignment) (first : Int)
    (y : Nat) (lines : List ComposedLine) :
    ∀ (idx : Int) (buf : Buffer) (a b : Nat), b ≠ area.y + y →
      (skipPaint W area align first y lines idx buf).1 a b = buf a b := by
  induction lines with
  | nil => intro idx buf a b _; rfl
  | cons l rest ih =>
      intro idx buf a b h
      by_cases hc : first ≤ idx
      · show ((if first ≤ idx then _ else _ : Buffer × List ComposedLine × Int)).1 a b = buf a b
        rw [if_pos hc]
        exact paintGo_ne_row _ _ _ _ _ _ _ _ h
      · show ((if first ≤ idx then _ else _ : Buffer × List ComposedLine × Int)).1 a b = buf a b
        rw [if_neg hc]
        exact ih _ _ _ _ h

/-- The lines left over by the skip-paint loop all come from its input. -/
theorem skipPaint_mem (W : String → Nat) (area : Rect) (align : Alignment) (first : Int)
    (y : Nat) (lines : List ComposedLine) :
    ∀ (idx : Int) (buf : Buffer) (l : ComposedLine),
      l ∈ (skipPaint W area align first y lines idx buf).2.1 → l ∈ lines := by
  induction lines with
  | nil => intro idx buf l h; exact absurd h (by simp [skipPaint])
  | cons hd rest ih =>
      intro idx buf l h
      by_cases hc : first ≤ idx
      · refine List.mem_cons_of_mem hd ?_
        have e : (skipPaint W area align first y (hd :: rest) idx buf).2.1 = rest := by
          show ((if first ≤ idx then _ else _ : Buffer × List ComposedLine × Int)).2.1 = rest
          rw [if_pos hc]
        rw [e] at h
        exact h
      · refine List.mem_cons_of_mem hd ?_
        have e : (skipPaint W area align first y (hd :: rest) idx buf).2.1 =
            (skipPaint W area align first y rest (wrapI16 (idx + 1)) buf).2.1 := by
          show ((if first ≤ idx then _ else _ : Buffer × List ComposedLine × Int)).2.1 = _
          rw [if_neg hc]
        rw [e] at h
        exact ih _ _ _ h

/-- The alignment offset keeps a line of admissible width inside the
viewport width. -/
theorem get_line_offset_add_le (lw w : Nat) (al : Alignment) (h : lw ≤ w) :
    get_line_offset lw w al + lw ≤ w := by
  cases al <;> simp only [get_line_offset] <;> omega

/-- Under the composer invariants, one row of the skip-paint loop never
writes outside the closed column range of the viewport. -/
theorem skipPaint_outside_col (W : String → Nat) (area : Rect) (align : Alignment) (first : Int)
    (y : Nat) (lines : List ComposedLine) :
    ∀ (idx : Int) (buf : Buffer) (a b : Nat),
      (∀ l ∈ lines, l.2 ≤ area.width ∧ l.2 = sumW W l.1) →
      (a < area.x ∨ area.x + area.width < a) →
      (skipPaint W area align first y lines idx buf).1 a b = buf a b := by
  induction lines with
  | nil => intro idx buf a b _ _; rfl
  | cons l rest ih =>
      intro idx buf a b hinv ha
      by_cases hc : first ≤ idx
      · show ((if first ≤ idx then _ else _ : Buffer × List ComposedLine × Int)).1 a b = buf a b
        rw [if_pos hc]
        have hl := hinv l (List.mem_cons_self l rest)
        have hoff := get_line_offset_add_le l.2 area.width align hl.1
        refine paintGo_outside_col W area y l.1 _ buf a b ?_
        rw [← hl.2]
        omega
      · show ((if first ≤ idx then _ else _ : Buffer × List ComposedLine × Int)).1 a b = buf a b
        rw [if_neg hc]
        exact ih _ _ _ _ (fun m hm => hinv m (List.mem_cons_of_mem l hm)) ha

/-- In the in-range regime (nonnegative `i16` start index, row index at
most 32767) the overflow-filler condition is false. -/
theorem no_filler_cond (first : Int) (y : Nat) (h0 : 0 ≤ first) (h1 : first ≤ 32767)
    (hy : y ≤ 32767) : ¬(toI16 y < wrapI16 (-first)) := by
  rw [toI16_of_le _ hy, wrapI16_eq_self _ (by omega) (by omega)]
  omega

/-- The row loop writes only into the rows it processes. -/
theorem drawRows_frame_row (oc : Option Char) (W : String → Nat) (area : Rect)
    (align : Alignment) (first : Int) :
    ∀ (n y : Nat) (lines : List ComposedLine) (idx : Int) (buf buf' : Buffer),
      drawRows oc W area align first n y lines idx buf = some buf' →
      ∀ a b, b < area.y + y ∨ area.y + y + n ≤ b → buf' a b = buf a b := by
  intro n
  induction n with
  | zero =>
      intro y lines idx buf buf' h a b _
      rw [drawRows_zero] at h
      cases h
      rfl
  | succ n ih =>
      intro y lines idx buf buf' h a b hb
      rw [drawRows_succ] at h
      by_cases hc : toI16 y < wrapI16 (-first)
      · rw [if_pos hc] at h
        cases oc with
        | none => exact absurd h (by simp)
        | some c =>
            rw [ih _ _ _ _ _ h a b (by omega), setSymbol_ne _ _ _ _ _ _ (by omega)]
      · rw [if_neg hc] at h
        rw [ih _ _ _ _ _ h a b (by omega), skipPaint_ne_row _ _ _ _ _ _ _ _ _ _ (by omega)]

/-- Under the composer invariants the row loop never writes outside the
closed column range of the viewport. -/
theorem drawRows_frame_col (oc : Option Char) (W : String → Nat) (area : Rect)
    (align : Alignment) (first : Int) :
    ∀ (n y : Nat) (lines : List ComposedLine) (idx : Int) (buf buf' : Buffer),
      drawRows oc W area align first n y lines idx buf = some buf' →
      (∀ l ∈ lines, l.2 ≤ area.width ∧ l.2 = sumW W l.1) →
      ∀ a b, (a < area.x ∨ area.x + area.width < a) → buf' a b = buf a b := by
  intro n
  induction n with
  | zero =>
      intro y lines idx buf buf' h _ a b _
      rw [drawRows_zero] at h
      cases h
      rfl
  | succ n ih =>
      intro y lines idx buf buf' h hinv a b ha
      rw [drawRows_succ] at h
      by_cases hc : toI16 y < wrapI16 (-first)
      · rw [if_pos hc] at h
        cases oc with
        | none => exact absurd h (by simp)
        | some c =>
            rw [ih _ _ _ _ _ h hinv a b ha, setSymbol_ne _ _ _ _ _ _ (by omega)]
      · rw [if_neg hc] at h
        rw [ih _ _ _ _ _ h
            (fun m hm => hinv m (skipPaint_mem W area align first y lines idx buf m hm)) a b ha]
        exact skipPaint_outside_col W area align first y lines idx buf a b hinv ha

/-- With the overflow character set, the row loop never fails: the only
failure point is the unwrap of an unset overflow character. -/
theorem drawRows_some_isSome (c : Char) (W : String → Nat) (area : Rect)
    (align : Alignment) (first : Int) :
    ∀ (n y : Nat) (lines : List ComposedLine) (idx : Int) (buf : Buffer),
      (drawRows (some c) W area align first n y lines idx buf).isSome = true := by
  intro n
  induction n with
  | zero => intro y lines idx buf; rfl
  | succ n ih =>
      intro y lines idx buf
      rw [drawRows_succ]
      by_cases hc : toI16 y < wrapI16 (-first)
      · rw [if_pos hc]
        exact ih _ _ _ _
      · rw [if_neg hc]
        exact ih _ _ _ _

/-- In the in-range regime the row loop never takes the filler branch,
so it never fails, for either overflow setting. -/
theorem drawRows_isSome_of (oc : Option Char) (W : String → Nat) (area : Rect)
    (align : Alignment) (first : Int) (h0 : 0 ≤ first) (h1 : first ≤ 32767) :
    ∀ (n y : Nat) (lines : List ComposedLine) (idx : Int) (buf : Buffer), y + n ≤ 32768 →
      (drawRows oc W area align first n y lines idx buf).isSome = true := by
  intro n
  induction n with
  | zero => intro y lines idx buf _; rfl
  | succ n ih =>
      intro y lines idx buf hy
      rw [drawRows_succ, if_neg (no_filler_cond first y h0 h1 (by omega))]
      exact ih _ _ _ _ (by omega)

/-- In the in-range regime the row loop does not depend on the overflow
character. -/
theorem drawRows_oc_irrel (oc oc' : Option Char) (W : String → Nat) (area : Rect)
    (align : Alignment) (first : Int) (h0 : 0 ≤ first) (h1 : first ≤ 32767) :
    ∀ (n y : Nat) (lines : List ComposedLine) (idx : Int) (buf : Buffer), y + n ≤ 32768 →
      drawRows oc W area align first n y lines idx buf =
        drawRows oc' W area align first n y lines idx buf := by
  intro n
  induction n with
  | zero => intro y lines idx buf _; rfl
  | succ n ih =>
      intro y lines idx buf hy
      rw [drawRows_succ, drawRows_succ, if_neg (no_filler_cond first y h0 h1 (by omega)),
        if_neg (no_filler_cond first y h0 h1 (by omega))]
      exact ih _ _ _ _ (by omega)

/-- In the in-range regime, with no lines left, the row loop leaves the
buffer unchanged. -/
theorem drawRows_nil (oc : Option Char) (W : String → Nat) (area : Rect)
    (align : Alignment) (first : Int) (h0 : 0 ≤ first) (h1 : first ≤ 32767) :
    ∀ (n y : Nat) (idx : Int) (buf : Buffer), y + n ≤ 32768 →
      drawRows oc W area align first n y [] idx buf = some buf := by
  intro n
  induction n with
  | zero => intro y idx buf _; rfl
  | succ n ih =>
      intro y idx buf hy
      rw [drawRows_succ, if_neg (no_filler_cond first y h0 h1 (by omega))]
      exact ih _ _ _ (by omega)

/-- A draw with positive viewport height runs the row loop over all rows. -/
theorem draw_pos (p : Paragraph) (area : Rect) (W : String → Nat)
    (lines : List ComposedLine) (buf : Buffer) (h : 1 ≤ area.height) :
    draw p area W lines buf =
      drawRows p.scroll_overflow_char W area p.alignment (firstLineIndex p area lines)
        area.height 0 lines 0 buf := by
  unfold draw background
  rw [if_neg (by omega)]

/-- C7 counterexample: a Top-anchored draw with offset 40000 and
overflow character set paints the filler character into row 0: the
`scroll as i16` cast makes the first line index negative, so the filler
branch is taken even for Top anchor. -/
theorem top_overflow_ignored_cex :
    ((draw ⟨Style.default, 40000, ScrollFrom.Top, some 'x', Alignment.Left⟩ ⟨0, 0, 2, 1⟩
        (fun _ => 1) [] (fun _ _ => ⟨" ", Style.default⟩)).getD
      (fun _ _ => ⟨" ", Style.default⟩)) 0 0 = ⟨String.singleton 'x', Style.default⟩ ∧
    (⟨String.singleton 'x', Style.default⟩ : Cell) ≠ ⟨" ", Style.default⟩ := by
  constructor
  · decide
  · decide

/-- C7 (amended): for every Top-anchored draw with offset at most 32767
and viewport height at most 32768, a set overflow character is ignored:
the draw coincides with the same draw with the overflow character unset
(so the filler branch is never taken and no filler is painted) and it
does not fail. -/
theorem top_overflow_char_ignored (st : Style) (sc : Nat) (c : Char) (al : Alignment)
    (area : Rect) (W : String → Nat) (lines : List ComposedLine) (buf : Buffer)
    (hs : sc ≤ 32767) (hh : area.height ≤ 32768) :
    draw ⟨st, sc, ScrollFrom.Top, some c, al⟩ area W lines buf =
      draw ⟨st, sc, ScrollFrom.Top, none, al⟩ area W lines buf ∧
    (draw ⟨st, sc, ScrollFrom.Top, some c, al⟩ area W lines buf).isSome = true := by
  by_cases h1 : area.height < 1
  · unfold draw
    rw [if_pos h1, if_pos h1]
    exact ⟨rfl, rfl⟩
  · rw [draw_pos _ _ _ _ _ (by omega), draw_pos _ _ _ _ _ (by omega)]
    have h0 : (0 : Int) ≤ toI16 sc := by
      rw [toI16_of_le _ hs]
      omega
    constructor
    · exact drawRows_oc_irrel (some c) none W area al (toI16 sc) h0 (toI16_ub sc)
        area.height 0 lines 0 buf (by omega)
    · exact drawRows_isSome_of (some c) W area al (toI16 sc) h0 (toI16_ub sc)
        area.height 0 lines 0 buf (by omega)

/-- Witness for C7 (amended) at a concrete Top-anchored draw. -/
theorem top_overflow_char_ignored_witness :
    draw ⟨Style.default, 1, ScrollFrom.Top, some 'x', Alignment.Left⟩ ⟨0, 0, 4, 2⟩
        (fun _ => 1) [([⟨"a", Style.default⟩], 1)] (fun _ _ => ⟨" ", Style.default⟩) =
      draw ⟨Style.default, 1, ScrollFrom.Top, none, Alignment.Left⟩ ⟨0, 0, 4, 2⟩
        (fun _ => 1) [([⟨"a", Style.default⟩], 1)] (fun _ _ => ⟨" ", Style.default⟩) ∧
    (draw ⟨Style.default, 1, ScrollFrom.Top, some 'x', Alignment.Left⟩ ⟨0, 0, 4, 2⟩
        (fun _ => 1) [([⟨"a", Style.default⟩], 1)]
        (fun _ _ => ⟨" ", Style.default⟩)).isSome = true :=
  top_overflow_char_ignored _ _ 'x' _ _ _ _ _ (by decide) (by decide)

/-- With a start index of zero, no lines and overflow unset, the row
loop panics as soon as the row counter reaches 32768, where `y as i16`
wraps to -32768 and the filler branch unwraps the unset character. -/
theorem drawRows_none_of_big (W : String → Nat) (area : Rect) (align : Alignment) :
    ∀ (n y : Nat) (idx : Int) (buf : Buffer), 32768 < y + n → y ≤ 32768 →
      drawRows none W area align 0 n y [] idx buf = none := by
  intro n
  induction n with
  | zero => intro y idx buf h1 h2; omega
  | succ n ih =>
      intro y idx buf h1 h2
      by_cases hy : y = 32768
      · subst hy
        rw [drawRows_succ, if_pos (by decide)]
      · rw [drawRows_succ, if_neg (no_filler_cond 0 y (by omega) (by omega) (by omega))]
        exact ih (y + 1) _ _ (by omega) (by omega)

/-- C9 counterexample: a Bottom-anchored draw with overflow unset whose
computed start index is 0 (within the claimed bound) still panics when
the viewport height is 32769: at row 32768 the `y as i16` cast goes
negative and the filler branch unwraps the unset overflow character. -/
theorem bottom_none_unwrap_cex :
    ((num_lines ([] : List ComposedLine) : Int) - (((32769 + 0) % 65536 : Nat) : Int) ≤ 32767) ∧
    draw ⟨Style.default, 0, ScrollFrom.Bottom, none, Alignment.Left⟩ ⟨0, 0, 1, 32769⟩
      (fun _ => 1) [] (fun _ _ => ⟨" ", Style.default⟩) = none := by
  constructor
  · decide
  · rw [draw_pos _ _ _ _ _ (by decide)]
    have e : firstLineIndex ⟨Style.default, 0, ScrollFrom.Bottom, none, Alignment.Left⟩
        ⟨0, 0, 1, 32769⟩ [] = 0 := by decide
    rw [e]
    exact drawRows_none_of_big _ _ _ 32769 0 0 _ (by omega) (by omega)

/-- C9 (amended): for every Bottom-anchored draw with overflow unset,
provided the computed start index `total - (height + offset)` is at most
32767 and the viewport height is at most 32768, the overflow-filler
branch is unreachable and the draw does not panic. -/
theorem bottom_none_no_unwrap (st : Style) (sc : Nat) (al : Alignment) (area : Rect)
    (W : String → Nat) (lines : List ComposedLine) (buf : Buffer)
    (hfit : (num_lines lines : Int) - (((area.height + sc) % 65536 : Nat) : Int) ≤ 32767)
    (hh : area.height ≤ 32768) :
    (draw ⟨st, sc, ScrollFrom.Bottom, none, al⟩ area W lines buf).isSome = true := by
  by_cases h1 : area.height < 1
  · unfold draw
    rw [if_pos h1]
    rfl
  · rw [draw_pos _ _ _ _ _ (by omega)]
    have hb : 0 ≤ firstLineIndex ⟨st, sc, ScrollFrom.Bottom, none, al⟩ area lines ∧
        firstLineIndex ⟨st, sc, ScrollFrom.Bottom, none, al⟩ area lines ≤ 32767 := by
      rw [firstLineIndex_bottom, bottomScrollOffset_none]
      by_cases hc : num_lines lines ≤ (area.height + sc) % 65536
      · rw [if_pos hc]
        exact ⟨le_refl 0, by omega⟩
      · rw [if_neg hc]
        have h2 : num_lines lines - (area.height + sc) % 65536 ≤ 32767 := by omega
        rw [toI16_of_le _ h2]
        exact ⟨by omega, by omega⟩
    exact drawRows_isSome_of none W area al _ hb.1 hb.2 area.height 0 lines 0 buf (by omega)

/-- Witness for C9 (amended): 3 lines, height 2, offset 0. -/
theorem bottom_none_no_unwrap_witness :
    (draw ⟨Style.default, 0, ScrollFrom.Bottom, none, Alignment.Left⟩ ⟨0, 0, 2, 2⟩
      (fun _ => 1) [([], 0), ([], 0), ([], 0)]
      (fun _ _ => ⟨" ", Style.default⟩)).isSome = true :=
  bottom_none_no_unwrap _ _ _ _ _ _ _ (by decide) (by decide)

/-- Casting a successor through `Int` coincides with incrementing the
cast, and stays in `i16` range below 32767. -/
theorem wrapI16_coe_succ (j : Nat) (h : j + 1 ≤ 32767) :
    wrapI16 ((j : Int) + 1) = ((j + 1 : Nat) : Int) := by
  have e : ((j + 1 : Nat) : Int) = (j : Int) + 1 := by push_cast; ring
  rw [e, wrapI16_eq_self _ (by omega) (by omega)]

/-- When the skip-paint loop runs out of lines before the start index,
it consumes them all, paints nothing and ends at index `j + length`. -/
theorem skipPaint_all_skip (W : String → Nat) (area : Rect) (align : Alignment)
    (k y : Nat) (hk : k ≤ 32767) :
    ∀ (lines : List ComposedLine) (j : Nat) (buf : Buffer), j + lines.length ≤ k →
      skipPaint W area align (k : Int) y lines (j : Int) buf =
        (buf, [], ((j + lines.length : Nat) : Int)) := by
  intro lines
  induction lines with
  | nil =>
      intro j buf _
      show (buf, ([] : List ComposedLine), (j : Int)) = _
      rw [List.length_nil, Nat.add_zero]
  | cons l rest ih =>
      intro j buf h
      rw [List.length_cons] at h
      show (if (k : Int) ≤ (j : Int) then _ else _) = _
      rw [if_neg (by omega : ¬((k : Int) ≤ (j : Int)))]
      rw [wrapI16_coe_succ j (by omega)]
      rw [ih (j + 1) buf (by omega)]
      have e : j + 1 + rest.length = j + (l :: rest).length := by
        rw [List.length_cons]
        omega
      rw [e]

/-- When the dropped suffix is nonempty, the skip-paint loop skips the
lines before the start index and paints the head of the suffix, ending
at index `k + 1`. -/
theorem skipPaint_drop_cons (W : String → Nat) (area : Rect) (align : Alignment)
    (k y : Nat) (hk : k ≤ 32767) :
    ∀ (lines : List ComposedLine) (j : Nat) (l : ComposedLine) (rest : List ComposedLine)
      (buf : Buffer), j ≤ k → List.drop (k - j) lines = l :: rest →
      skipPaint W area align (k : Int) y lines (j : Int) buf =
        (paintLine W area align y l buf, rest, wrapI16 ((k : Int) + 1)) := by
  intro lines
  induction lines with
  | nil =>
      intro j l rest buf _ hdrop
      rw [List.drop_nil] at hdrop
      exact absurd hdrop (by simp)
  | cons hd tl ih =>
      intro j l rest buf hj hdrop
      by_cases hc : k ≤ j
      · have hjk : j = k := by omega
        subst hjk
        rw [Nat.sub_self, List.drop_zero] at hdrop
        injection hdrop with h1 h2
        subst h1
        subst h2
        show (if (j : Int) ≤ (j : Int) then _ else _) = _
        rw [if_pos (le_refl ((j : Int)))]
      · show (if (k : Int) ≤ (j : Int) then _ else _) = _
        rw [if_neg (by omega : ¬((k : Int) ≤ (j : Int)))]
        rw [wrapI16_coe_succ j (by omega)]
        refine ih (j + 1) l rest buf (by omega) ?_
        have e2 : k - j = (k - (j + 1)) + 1 := by omega
        rw [e2, List.drop_succ_cons] at hdrop
        exact hdrop

/-- Once the start index has been passed, two runs of the row loop with
start indices `k` and `0` and indices at least as large paint the same
rows. -/
theorem drawRows_post (oc : Option Char) (W : String → Nat) (area : Rect) (align : Alignment)
    (k : Nat) (hk : k ≤ 32767) :
    ∀ (n y : Nat) (lines : List ComposedLine) (j1 j2 : Nat) (buf : Buffer),
      y + n ≤ 32768 → j1 + n ≤ 32768 → j2 + n ≤ 32768 → k ≤ j1 →
      drawRows oc W area align (k : Int) n y lines (j1 : Int) buf =
        drawRows oc W area align 0 n y lines (j2 : Int) buf := by
  intro n
  induction n with
  | zero => intros; rw [drawRows_zero, drawRows_zero]
  | succ n ih =>
      intro y lines j1 j2 buf hy h1 h2 hj
      rw [drawRows_succ, drawRows_succ,
        if_neg (no_filler_cond (k : Int) y (by omega) (by omega) (by omega)),
        if_neg (no_filler_cond 0 y (by omega) (by omega) (by omega))]
      cases lines with
      | nil =>
          show drawRows oc W area align (k : Int) n (y + 1) [] (j1 : Int) buf =
            drawRows oc W area align 0 n (y + 1) [] (j2 : Int) buf
          exact ih (y + 1) [] j1 j2 buf (by omega) (by omega) (by omega) hj
      | cons l rest =>
          have e1 : skipPaint W area align (k : Int) y (l :: rest) (j1 : Int) buf =
              (paintLine W area align y l buf, rest, wrapI16 ((j1 : Int) + 1)) := by
            show (if (k : Int) ≤ (j1 : Int) then _ else _) = _
            rw [if_pos (by omega : (k : Int) ≤ (j1 : Int))]
          have e2 : skipPaint W area align 0 y (l :: rest) (j2 : Int) buf =
              (paintLine W area align y l buf, rest, wrapI16 ((j2 : Int) + 1)) := by
            show (if (0 : Int) ≤ (j2 : Int) then _ else _) = _
            rw [if_pos (by omega : (0 : Int) ≤ (j2 : Int))]
          rw [e1, e2]
          cases n with
          | zero => rw [drawRows_zero, drawRows_zero]
          | succ m =>
              rw [wrapI16_coe_succ j1 (by omega), wrapI16_coe_succ j2 (by omega)]
              exact ih (y + 1) rest (j1 + 1) (j2 + 1) _ (by omega) (by omega) (by omega)
                (by omega)

/-- A Top-anchored row loop with start index `k` behaves like one with
start index `0` on the suffix of the lines from index `k` on. -/
theorem drawRows_top_shift (oc : Option Char) (W : String → Nat) (area : Rect)
    (align : Alignment) (k : Nat) (hk : k ≤ 32767) :
    ∀ (n y j : Nat) (lines : List ComposedLine) (buf : Buffer),
      y + n ≤ 32768 → k + n ≤ 32768 → j ≤ k →
      drawRows oc W area align (k : Int) n y lines (j : Int) buf =
        drawRows oc W area align 0 n y (List.drop (k - j) lines) 0 buf := by
  intro n
  induction n with
  | zero => intros; rw [drawRows_zero, drawRows_zero]
  | succ n ih =>
      intro y j lines buf hy hkn hj
      rw [drawRows_succ, drawRows_succ,
        if_neg (no_filler_cond (k : Int) y (by omega) (by omega) (by omega)),
        if_neg (no_filler_cond 0 y (by omega) (by omega) (by omega))]
      cases hdrop : List.drop (k - j) lines with
      | nil =>
          have hlen : lines.length ≤ k - j := by
            rw [← List.drop_eq_nil_iff]
            exact hdrop
          rw [skipPaint_all_skip W area align k y hk lines j buf (by omega)]
          show drawRows oc W area align (k : Int) n (y + 1) []
              ((j + lines.length : Nat) : Int) buf =
            drawRows oc W area align 0 n (y + 1) [] (0 : Int) buf
          rw [drawRows_nil oc W area align (k : Int) (by omega) (by omega) n (y + 1) _ buf
              (by omega),
            drawRows_nil oc W area align 0 (by omega) (by omega) n (y + 1) _ buf (by omega)]
      | cons l rest =>
          rw [skipPaint_drop_cons W area align k y hk lines j l rest buf hj hdrop]
          have e2 : skipPaint W area align 0 y (l :: rest) 0 buf =
              (paintLine W area align y l buf, rest, wrapI16 (0 + 1)) := by
            show (if (0 : Int) ≤ (0 : Int) then _ else _) = _
            rw [if_pos (le_refl (0 : Int))]
          rw [e2]
          cases n with
          | zero => rw [drawRows_zero, drawRows_zero]
          | succ m =>
              have w1 : wrapI16 ((k : Int) + 1) = ((k + 1 : Nat) : Int) :=
                wrapI16_coe_succ k (by omega)
              have w2 : wrapI16 ((0 : Int) + 1) = ((1 : Nat) : Int) := by decide
              rw [w1, w2]
              exact drawRows_post oc W area align k hk (m + 1) (y + 1) rest (k + 1) 1 _
                (by omega) (by omega) (by omega) (by omega)

/-- C4 counterexample: a Top-anchored draw with offset 40000 over an
empty line list panics (the `scroll as i16` cast is negative, so row 0
takes the filler branch and unwraps the unset overflow character), while
the offset-0 draw over the dropped suffix succeeds: the two draws are
not equivalent. -/
theorem top_scroll_drop_cex :
    draw ⟨Style.default, 40000, ScrollFrom.Top, none, Alignment.Left⟩ ⟨0, 0, 2, 1⟩
      (fun _ => 1) [] (fun _ _ => ⟨" ", Style.default⟩) = none ∧
    draw ⟨Style.default, 0, ScrollFrom.Top, none, Alignment.Left⟩ ⟨0, 0, 2, 1⟩
      (fun _ => 1) (List.drop 40000 ([] : List ComposedLine))
      (fun _ _ => ⟨" ", Style.default⟩) =
      some (fun _ _ => ⟨" ", Style.default⟩) := by
  constructor
  · rw [draw_pos _ _ _ _ _ (by decide), drawRows_succ, if_pos (by decide)]
  · rw [List.drop_nil, draw_pos _ _ _ _ _ (by decide), drawRows_succ, if_neg (by decide)]
    rw [drawRows_zero, skipPaint_nil]

/-- C4 (amended): for every Top-anchored draw with offset `k` at most
32767 and `k + viewport height` at most 32768, the draw skips exactly
the first `k` composed lines: it paints the same cells as a Top-anchored
draw with offset 0 over the suffix of the composed lines starting at
index `k`. -/
theorem top_scroll_drop (st : Style) (k : Nat) (oc : Option Char) (al : Alignment)
    (area : Rect) (W : String → Nat) (lines : List ComposedLine) (buf : Buffer)
    (hk : k ≤ 32767) (hkh : k + area.height ≤ 32768) :
    draw ⟨st, k, ScrollFrom.Top, oc, al⟩ area W lines buf =
      draw ⟨st, 0, ScrollFrom.Top, oc, al⟩ area W (List.drop k lines) buf := by
  by_cases h1 : area.height < 1
  · unfold draw
    rw [if_pos h1, if_pos h1]
  · rw [draw_pos _ _ _ _ _ (by omega), draw_pos _ _ _ _ _ (by omega)]
    have e1 : firstLineIndex ⟨st, k, ScrollFrom.Top, oc, al⟩ area lines = (k : Int) := by
      rw [firstLineIndex_top, toI16_of_le _ hk]
    have e2 : firstLineIndex ⟨st, 0, ScrollFrom.Top, oc, al⟩ area (List.drop k lines) =
        ((0 : Nat) : Int) := by
      rw [firstLineIndex_top, toI16_of_le _ (by omega)]
    rw [e1, e2]
    have e3 := drawRows_top_shift oc W area al k hk area.height 0 0 lines buf
      (by omega) (by omega) (by omega)
    rw [Nat.sub_zero] at e3
    exact e3

/-- Witness for C4 (amended): offset 1 over three lines, height 2. -/
theorem top_scroll_drop_witness :
    draw ⟨Style.default, 1, ScrollFrom.Top, none, Alignment.Left⟩ ⟨0, 0, 4, 2⟩ (fun _ => 1)
      [([⟨"a", Style.default⟩], 1), ([⟨"b", Style.default⟩], 1), ([⟨"c", Style.default⟩], 1)]
      (fun _ _ => ⟨" ", Style.default⟩) =
    draw ⟨Style.default, 0, ScrollFrom.Top, none, Alignment.Left⟩ ⟨0, 0, 4, 2⟩ (fun _ => 1)
      (List.drop 1
        [([⟨"a", Style.default⟩], 1), ([⟨"b", Style.default⟩], 1), ([⟨"c", Style.default⟩], 1)])
      (fun _ _ => ⟨" ", Style.default⟩) :=
  top_scroll_drop _ _ _ _ _ _ _ _ (by decide) (by decide)

/-- Unfolding: filling zero rows is a no-op. -/
theorem fillRows_zero (c : Char) (area : Rect) (y : Nat) (buf : Buffer) :
    fillRows c area 0 y buf = buf := rfl

/-- Unfolding: one filler row, then the rest. -/
theorem fillRows_succ (c : Char) (area : Rect) (m y : Nat) (buf : Buffer) :
    fillRows c area (m + 1) y buf =
      fillRows c area m (y + 1) (setSymbol buf area.x (area.y + y) (String.singleton c)) := rfl

/-- Unfolding: painting zero rows is a no-op. -/
theorem paintSeq_zero (W : String → Nat) (area : Rect) (align : Alignment) (y : Nat)
    (lines : List ComposedLine) (buf : Buffer) : paintSeq W area align 0 y lines buf = buf := rfl

/-- Unfolding: painting with no lines left is a no-op. -/
theorem paintSeq_nil (W : String → Nat) (area : Rect) (align : Alignment) (n y : Nat)
    (buf : Buffer) : paintSeq W area align (n + 1) y [] buf = buf := rfl

/-- Unfolding: paint the head line on this row, the rest below. -/
theorem paintSeq_cons (W : String → Nat) (area : Rect) (align : Alignment) (n y : Nat)
    (l : ComposedLine) (rest : List ComposedLine) (buf : Buffer) :
    paintSeq W area align (n + 1) y (l :: rest) buf =
      paintSeq W area align n (y + 1) rest (paintLine W area align y l buf) := rfl

/-- For a negated in-range start index, rows below the offset take the
filler branch. -/
theorem filler_cond_neg (k y : Nat) (hk : k ≤ 32767) (hy : y ≤ 32767) (hyk : y < k) :
    toI16 y < wrapI16 (-(-(k : Int))) := by
  rw [neg_neg, toI16_of_le _ hy, wrapI16_eq_self _ (by omega) (by omega)]
  omega

/-- For a negated in-range start index, rows at or past the offset do
not take the filler branch. -/
theorem no_filler_cond_neg (k y : Nat) (hk : k ≤ 32767) (hy : y ≤ 32767) (hky : k ≤ y) :
    ¬(toI16 y < wrapI16 (-(-(k : Int)))) := by
  rw [neg_neg, toI16_of_le _ hy, wrapI16_eq_self _ (by omega) (by omega)]
  omega

/-- With no lines left and no filler rows in range, the row loop leaves
the buffer unchanged. -/
theorem drawRows_nil_of_no_filler (oc : Option Char) (W : String → Nat) (area : Rect)
    (align : Alignment) (first : Int) :
    ∀ (n y : Nat) (idx : Int) (buf : Buffer),
      (∀ m, y ≤ m → m < y + n → ¬(toI16 m < wrapI16 (-first))) →
      drawRows oc W area align first n y [] idx buf = some buf := by
  intro n
  induction n with
  | zero => intros; rw [drawRows_zero]
  | succ n ih =>
      intro y idx buf hnf
      rw [drawRows_succ, if_neg (hnf y (le_refl y) (by omega)), skipPaint_nil]
      exact ih (y + 1) idx buf (fun m h1 h2 => hnf m (by omega) (by omega))

/-- Past the filler rows, the row loop paints the lines one per row. -/
theorem drawRows_paint_all (oc : Option Char) (W : String → Nat) (area : Rect)
    (align : Alignment) (k : Nat) (hk : k ≤ 32767) :
    ∀ (n y j : Nat) (lines : List ComposedLine) (buf : Buffer),
      y + n ≤ 32768 → j + n ≤ 32768 → k ≤ y →
      drawRows oc W area align (-(k : Int)) n y lines (j : Int) buf =
        some (paintSeq W area align n y lines buf) := by
  intro n
  induction n with
  | zero => intros; rw [drawRows_zero, paintSeq_zero]
  | succ n ih =>
      intro y j lines buf hy hj hky
      rw [drawRows_succ, if_neg (no_filler_cond_neg k y hk (by omega) hky)]
      cases lines with
      | nil =>
          rw [skipPaint_nil, paintSeq_nil]
          exact drawRows_nil_of_no_filler oc W area align (-(k : Int)) n (y + 1) _ buf
            (fun m h1 h2 => no_filler_cond_neg k m hk (by omega) (by omega))
      | cons l rest =>
          have e1 : skipPaint W area align (-(k : Int)) y (l :: rest) (j : Int) buf =
              (paintLine W area align y l buf, rest, wrapI16 ((j : Int) + 1)) := by
            show (if (-(k : Int)) ≤ (j : Int) then _ else _) = _
            rw [if_pos (by omega : (-(k : Int)) ≤ (j : Int))]
          rw [e1, paintSeq_cons]
          cases n with
          | zero => rw [drawRows_zero, paintSeq_zero]
          | succ m =>
              rw [wrapI16_coe_succ j (by omega)]
              exact ih (y + 1) (j + 1) rest _ (by omega) (by omega) (by omega)

/-- A Bottom-anchored row loop with negated start index `-k` fills the
first `k` rows with the overflow character (symbol only) and then paints
the lines one per row from row `k` on. -/
theorem drawRows_bottom_overflow (c : Char) (W : String → Nat) (area : Rect)
    (align : Alignment) (k : Nat) (hk : k ≤ 32767) :
    ∀ (n y : Nat) (lines : List ComposedLine) (j : Nat) (buf : Buffer),
      y + n ≤ 32768 → j + n ≤ 32768 → y ≤ k →
      drawRows (some c) W area align (-(k : Int)) n y lines (j : Int) buf =
        some (paintSeq W area align (n - (k - y)) k lines
          (fillRows c area (min (k - y) n) y buf)) := by
  intro n
  induction n with
  | zero =>
      intros
      rw [drawRows_zero, Nat.zero_sub, Nat.min_zero, paintSeq_zero, fillRows_zero]
  | succ n ih =>
      intro y lines j buf hy hj hyk
      by_cases hcase : y = k
      · have e0 : k - y = 0 := by omega
        rw [e0, Nat.sub_zero, Nat.zero_min, fillRows_zero, hcase]
        exact drawRows_paint_all (some c) W area align k hk (n + 1) k j lines buf
          (by omega) hj (le_refl k)
      · have hlt : y < k := by omega
        rw [drawRows_succ, if_pos (filler_cond_neg k y hk (by omega) hlt)]
        show drawRows (some c) W area align (-(k : Int)) n (y + 1) lines (j : Int)
            (setSymbol buf area.x (area.y + y) (String.singleton c)) = _
        rw [ih (y + 1) lines j _ (by omega) (by omega) (by omega)]
        have ecount : (n + 1) - (k - y) = n - (k - (y + 1)) := by omega
        have emin : min (k - y) (n + 1) = min (k - (y + 1)) n + 1 := by omega
        rw [ecount, emin, fillRows_succ]

/-- C3 counterexample: the overflow filler is written with `set_symbol`
only, so the filler cell keeps the style already in the grid cell — here
`⟨7, 8, 9⟩` — rather than being painted in the default style. -/
theorem bottom_overflow_style_cex :
    ((draw ⟨Style.default, 1, ScrollFrom.Bottom, some 'x', Alignment.Left⟩ ⟨0, 0, 4, 2⟩
        (fun _ => 1) [([⟨"a", ⟨1, 2, 3⟩⟩], 1)] (fun _ _ => ⟨" ", ⟨7, 8, 9⟩⟩)).getD
      (fun _ _ => ⟨" ", ⟨7, 8, 9⟩⟩)) 0 0 = ⟨String.singleton 'x', ⟨7, 8, 9⟩⟩ ∧
    (⟨7, 8, 9⟩ : Style) ≠ Style.default := by
  constructor
  · decide
  · decide

/-- C3 (amended): for every Bottom-anchored draw with overflow character
`c`, fewer composed lines than the viewport height, offset `k` with
`0 < k ≤ 32767` and viewport height at most 32768: the topmost
`min k height` rows each get the single filler character `c` at the
viewport's left column with the cell's existing style left unchanged,
and the remaining rows show the content painted one line per row
starting at composed line 0 from row `k`. -/
theorem bottom_overflow_short_content (st : Style) (k : Nat) (c : Char) (al : Alignment)
    (area : Rect) (W : String → Nat) (lines : List ComposedLine) (buf : Buffer)
    (hshort : lines.length < area.height) (hk0 : 0 < k) (hk : k ≤ 32767)
    (hh : area.height ≤ 32768) :
    draw ⟨st, k, ScrollFrom.Bottom, some c, al⟩ area W lines buf =
      some (paintSeq W area al (area.height - k) k lines
        (fillRows c area (min k area.height) 0 buf)) := by
  rw [draw_pos _ _ _ _ _ (by omega)]
  have e : firstLineIndex ⟨st, k, ScrollFrom.Bottom, some c, al⟩ area lines = -(k : Int) := by
    rw [firstLineIndex_bottom, bottomScrollOffset_some, num_lines_eq,
      Nat.mod_eq_of_lt (by omega)]
    rw [if_pos (by omega), toI16_of_le _ hk, wrapI16_eq_self _ (by omega) (by omega)]
  rw [e]
  have e2 := drawRows_bottom_overflow c W area al k hk area.height 0 lines 0 buf
    (by omega) (by omega) (by omega)
  rw [Nat.sub_zero] at e2
  exact e2

/-- Witness for C3 (amended): one line, height 3, offset 1. -/
theorem bottom_overflow_short_content_witness :
    draw ⟨Style.default, 1, ScrollFrom.Bottom, some 'x', Alignment.Left⟩ ⟨0, 0, 4, 3⟩
      (fun _ => 1) [([⟨"a", Style.default⟩], 1)] (fun _ _ => ⟨" ", Style.default⟩) =
      some (paintSeq (fun _ => 1) ⟨0, 0, 4, 3⟩ Alignment.Left (3 - 1) 1
        [([⟨"a", Style.default⟩], 1)]
        (fillRows 'x' ⟨0, 0, 4, 3⟩ (min 1 3) 0 (fun _ _ => ⟨" ", Style.default⟩))) :=
  bottom_overflow_short_content _ _ 'x' _ _ _ _ _ (by decide) (by decide) (by decide)
    (by decide)

/-- Unfolding: one row step with the overflow character set. -/
theorem drawRows_succ_some (c : Char) (W : String → Nat) (area : Rect) (align : Alignment)
    (first : Int) (n y : Nat) (lines : List ComposedLine) (idx : Int) (buf : Buffer) :
    drawRows (some c) W area align first (n + 1) y lines idx buf =
      if toI16 y < wrapI16 (-first) then
        drawRows (some c) W area align first n (y + 1) lines idx
          (setSymbol buf area.x (area.y + y) (String.singleton c))
      else
        drawRows (some c) W area align first n (y + 1)
          (skipPaint W area align first y lines idx buf).2.1
          (skipPaint W area align first y lines idx buf).2.2
          (skipPaint W area align first y lines idx buf).1 := rfl

/-- Every row of the loop that takes the filler branch ends with exactly
one write in its row: the cell at the viewport's left column carries the
filler character with its style untouched, and every other cell of the
row is untouched. -/
theorem drawRows_filler_row (c : Char) (W : String → Nat) (area : Rect) (align : Alignment)
    (first : Int) :
    ∀ (n y : Nat) (lines : List ComposedLine) (idx : Int) (buf buf' : Buffer),
      drawRows (some c) W area align first n y lines idx buf = some buf' →
      ∀ m, y ≤ m → m < y + n → toI16 m < wrapI16 (-first) →
      (buf' area.x (area.y + m) =
        ⟨String.singleton c, (buf area.x (area.y + m)).style⟩ ∧
       ∀ a, a ≠ area.x → buf' a (area.y + m) = buf a (area.y + m)) := by
  intro n
  induction n with
  | zero => intro y lines idx buf buf' _ m hm1 hm2 _; omega
  | succ n ih =>
      intro y lines idx buf buf' h m hm1 hm2 hcond
      by_cases hy : m = y
      · subst hy
        rw [drawRows_succ_some, if_pos hcond] at h
        have hrow := drawRows_frame_row (some c) W area align first n (m + 1) lines idx _ buf' h
        constructor
        · rw [hrow area.x (area.y + m) (by omega)]
          unfold setSymbol
          rw [if_pos ⟨rfl, rfl⟩]
        · intro a ha
          rw [hrow a (area.y + m) (by omega)]
          unfold setSymbol
          rw [if_neg (fun hcontra => ha hcontra.1)]
      · by_cases hc : toI16 y < wrapI16 (-first)
        · rw [drawRows_succ_some, if_pos hc] at h
          have hi := ih (y + 1) lines idx _ buf' h m (by omega) (by omega) hcond
          have hb1 : ∀ a, setSymbol buf area.x (area.y + y) (String.singleton c) a
              (area.y + m) = buf a (area.y + m) :=
            fun a => setSymbol_ne _ _ _ _ _ _ (by omega)
          constructor
          · rw [hi.1, hb1]
          · intro a ha
            rw [hi.2 a ha, hb1]
        · rw [drawRows_succ_some, if_neg hc] at h
          have hi := ih (y + 1) _ _ _ buf' h m (by omega) (by omega) hcond
          have hsp : ∀ a, (skipPaint W area align first y lines idx buf).1 a (area.y + m) =
              buf a (area.y + m) :=
            fun a => skipPaint_ne_row W area align first y lines idx buf a _ (by omega)
          constructor
          · rw [hi.1, hsp]
          · intro a ha
            rw [hi.2 a ha, hsp]

/-- C10: for every overflow-filler row of a draw, exactly one cell is
written — the cell at the viewport's left column of that row — with its
symbol set to the filler character and its style left unchanged; every
other cell of that row is untouched. -/
theorem overflow_filler_row_single_write (p : Paragraph) (area : Rect) (W : String → Nat)
    (lines : List ComposedLine) (buf : Buffer) (c : Char)
    (hoc : p.scroll_overflow_char = some c) (m : Nat) (hm : m < area.height)
    (hcond : toI16 m < wrapI16 (-(firstLineIndex p area lines))) :
    ((draw p area W lines buf).getD buf) area.x (area.y + m) =
      ⟨String.singleton c, (buf area.x (area.y + m)).style⟩ ∧
    ∀ a, a ≠ area.x →
      ((draw p area W lines buf).getD buf) a (area.y + m) = buf a (area.y + m) := by
  rw [draw_pos _ _ _ _ _ (by omega), hoc]
  have hs := drawRows_some_isSome c W area p.alignment (firstLineIndex p area lines)
    area.height 0 lines 0 buf
  obtain ⟨buf', hb⟩ := Option.isSome_iff_exists.mp hs
  rw [hb]
  exact drawRows_filler_row c W area p.alignment (firstLineIndex p area lines)
    area.height 0 lines 0 buf buf' hb m (by omega) (by omega) hcond

/-- Witness for C10: a Bottom draw with one line, height 2, offset 1:
row 0 is a filler row; its left cell gets the filler symbol with the
buffer's style `⟨5, 6, 7⟩` untouched. -/
theorem overflow_filler_row_single_write_witness :
    ((draw ⟨Style.default, 1, ScrollFrom.Bottom, some 'x', Alignment.Left⟩ ⟨0, 0, 2, 2⟩
        (fun _ => 1) [([⟨"a", Style.default⟩], 1)] (fun _ _ => ⟨" ", ⟨5, 6, 7⟩⟩)).getD
      (fun _ _ => ⟨" ", ⟨5, 6, 7⟩⟩)) 0 0 = ⟨String.singleton 'x', ⟨5, 6, 7⟩⟩ := by
  have h := (overflow_filler_row_single_write
    ⟨Style.default, 1, ScrollFrom.Bottom, some 'x', Alignment.Left⟩ ⟨0, 0, 2, 2⟩
    (fun _ => 1) [([⟨"a", Style.default⟩], 1)] (fun _ _ => ⟨" ", ⟨5, 6, 7⟩⟩) 'x' rfl 0
    (by decide) (by decide)).1
  simpa using h

/-- C6 counterexample: a composed line that satisfies the composer
invariants (stored width 1 = 1 + 0, bounded by the viewport width 1) but
ends in a zero-width grapheme, drawn right-aligned in a width-1
viewport, writes that trailing grapheme into the cell at column
`viewport.right`, strictly outside the viewport, changing it. -/
theorem draw_outside_write_cex :
    (∀ l ∈ [(([⟨"a", Style.default⟩, ⟨"z", Style.default⟩], 1) : ComposedLine)],
        l.2 ≤ (1 : Nat) ∧ l.2 = sumW (fun s => if s = "a" then 1 else 0) l.1) ∧
    ((draw ⟨Style.default, 0, ScrollFrom.Top, none, Alignment.Right⟩ ⟨0, 0, 1, 1⟩
        (fun s => if s = "a" then 1 else 0)
        [([⟨"a", Style.default⟩, ⟨"z", Style.default⟩], 1)]
        (fun _ _ => ⟨" ", Style.default⟩)).getD (fun _ _ => ⟨" ", Style.default⟩)) 1 0 =
      ⟨"z", Style.default⟩ ∧
    (⟨"z", Style.default⟩ : Cell) ≠ ⟨" ", Style.default⟩ := by
  refine ⟨?_, ?_, ?_⟩
  · decide
  · decide
  · decide

/-- C6 (amended): for every draw over composed lines satisfying the
composer invariants (stored width equals the summed unit widths and is
bounded by the viewport width), at most viewport.height rows are
painted, every write lands in rows [top, top + height) and columns
[left, left + width] — the right boundary only reachable by trailing
zero-width graphemes — and every cell outside those rows or outside the
closed column range is left unchanged. -/
theorem draw_writes_confined (p : Paragraph) (area : Rect) (W : String → Nat)
    (lines : List ComposedLine) (buf : Buffer)
    (hinv : ∀ l ∈ lines, l.2 ≤ area.width ∧ l.2 = sumW W l.1) :
    ∀ a b, (b < area.y ∨ area.y + area.height ≤ b ∨ a < area.x ∨ area.x + area.width < a) →
      ((draw p area W lines buf).getD buf) a b = buf a b := by
  intro a b hout
  by_cases h1 : area.height < 1
  · unfold draw
    rw [if_pos h1]
    rfl
  · rw [draw_pos _ _ _ _ _ (by omega)]
    rcases hd : drawRows p.scroll_overflow_char W area p.alignment
        (firstLineIndex p area lines) area.height 0 lines 0 buf with _ | buf'
    · rw [Option.getD_none]
    · rw [Option.getD_some]
      rcases hout with h | h | h | h
      · exact drawRows_frame_row _ W area p.alignment _ area.height 0 lines 0 buf buf' hd a b
          (by omega)
      · exact drawRows_frame_row _ W area p.alignment _ area.height 0 lines 0 buf buf' hd a b
          (by omega)
      · exact drawRows_frame_col _ W area p.alignment _ area.height 0 lines 0 buf buf' hd hinv
          a b (by omega)
      · exact drawRows_frame_col _ W area p.alignment _ area.height 0 lines 0 buf buf' hd hinv
          a b (by omega)

/-- Witness for C6 (amended): a cell far outside the viewport is
unchanged by a concrete draw. -/
theorem draw_writes_confined_witness :
    ((draw ⟨Style.default, 0, ScrollFrom.Top, none, Alignment.Left⟩ ⟨0, 0, 2, 2⟩
        (fun _ => 1) [([⟨"a", Style.default⟩], 1)] (fun _ _ => ⟨" ", Style.default⟩)).getD
      (fun _ _ => ⟨" ", Style.default⟩)) 10 0 =
      (fun _ _ => (⟨" ", Style.default⟩ : Cell)) 10 0 :=
  draw_writes_confined _ _ _ _ _ (by decide) 10 0 (by decide)

end Tui
